import Mathlib

/-!
Verification of the validation-and-retry controller of tiny-sql-expert
(src/app.py), shallowly embedded in Lean 4.

Strings are modelled as `List Char`.  Python string operations used by the
source (strip, lower, count, endswith, splitlines, regex search) are given
explicit executable definitions below; ASCII case folding suffices for the
inputs the checks inspect (SQL keywords and table names are ASCII).  The
external collaborators are modelled as function parameters: the `sqlparse`
library as a `ParseFn` returning `Except Unit` (an `Except.error` models the
library raising), and the text-generation backend as a function from the
attempt number and prompt to `Except Unit (List Char)` (error = the backend
raising).  Every definition is translated from src/app.py; the few
spec-level predicates used to state claims (`Balanced`, `WholeWordAt`) are
clearly named as such.
-/

namespace TinySql

/-! ## Character helpers (Python str.lower / \w / whitespace, ASCII model) -/

/-- ASCII case folding: model of Python `str.lower()` on the characters the
checks inspect. -/
def toLowerChar (c : Char) : Char :=
  if 'A' ≤ c ∧ c ≤ 'Z' then Char.ofNat (c.toNat + 32) else c

/-- Word characters of the regex `\b` boundary (Python `\w`, ASCII model). -/
def isWordChar (c : Char) : Bool :=
  ('a' ≤ c && c ≤ 'z') || ('A' ≤ c && c ≤ 'Z') || ('0' ≤ c && c ≤ '9') || c == '_'

/-- Whitespace stripped by Python `str.strip()` (ASCII). -/
def isPySpace (c : Char) : Bool :=
  c == ' ' || c == '\t' || c == '\n' || c == '\r' || c == Char.ofNat 11 || c == Char.ofNat 12

/-- Python `str.strip()`: drop leading and trailing whitespace. -/
def trim (s : List Char) : List Char :=
  ((s.dropWhile isPySpace).reverse.dropWhile isPySpace).reverse

/-- Python `sep.join(pieces)`. -/
def joinSep (sep : List Char) : List (List Char) → List Char
  | [] => []
  | [x] => x
  | x :: xs => x ++ sep ++ joinSep sep xs

/-- The single-quote character (Char.ofNat 39). -/
def squote : Char := Char.ofNat 39

/-- The double-quote character (Char.ofNat 34). -/
def dquote : Char := Char.ofNat 34

/-- Python `s.endswith(";")` for the one-character suffix used by the code. -/
def endsWithSemi (s : List Char) : Bool := s.getLast? == some ';'

/-! ## The schema and the denylist (src/app.py lines 12-21)

`FORBIDDEN_WORDS` and `ALLOWED_TABLES` are Python sets; their iteration
order is unspecified, so the list order chosen here is the literal order of
src/app.py.  No claim depends on the order, only on membership. -/

def FORBIDDEN_WORDS : List (List Char) :=
  ["drop".data, "delete".data, "truncate".data, "update".data, "insert".data,
   "alter".data, "create".data, "grant".data, "revoke".data]

def ALLOWED_TABLES : List (List Char) :=
  ["users".data, "orders".data, "products".data]

/-! ## parentheses_match (src/app.py lines 77-87) -/

/-- Membership test `ch in "([{"`. -/
def isOpenB (c : Char) : Bool := c == '(' || c == '[' || c == '{'

/-- Membership test `ch in ")]}"`. -/
def isCloseB (c : Char) : Bool := c == ')' || c == ']' || c == '}'

/-- The dict `pairs = {")": "(", "]": "[", "}": "{"}`. -/
def pairOf (c : Char) : Char :=
  if c == ')' then '(' else if c == ']' then '[' else '{'

/-- The closing bracket of an opener (used by the spec-side `Balanced`). -/
def closeOf (c : Char) : Char :=
  if c == '(' then ')' else if c == '[' then ']' else '}'

def isBracketB (c : Char) : Bool := isOpenB c || isCloseB c

/-- The loop of `parentheses_match`: `stack` is the list of pending openers,
most recent first. -/
def pmGo : List Char → List Char → Bool
  | stack, [] => stack.isEmpty
  | stack, c :: rest =>
    if isOpenB c then pmGo (c :: stack) rest
    else if isCloseB c then
      match stack with
      | [] => false
      | top :: stack2 => if top == pairOf c then pmGo stack2 rest else false
    else pmGo stack rest

def parentheses_match (s : List Char) : Bool := pmGo [] s

/-! ## quotes_match (src/app.py lines 89-91) -/

def quotes_match (s : List Char) : Bool :=
  s.count squote % 2 == 0 && s.count dquote % 2 == 0

/-! ## contains_forbidden (src/app.py lines 93-100)

`re.search(r"\b" + kw + r"\b", low)` for an all-word-character keyword `kw`
succeeds iff `kw` occurs in `low` with no word character immediately before
or after the occurrence.  `wwGo` scans every start position, carrying the
character just before the current suffix. -/

/-- A word boundary holds against this neighbouring character (none = edge
of the string). -/
def boundaryOk (o : Option Char) : Bool :=
  match o with
  | none => true
  | some c => !isWordChar c

def wwGo (kw : List Char) : Option Char → List Char → Bool
  | _, [] => false
  | prev, c :: rest =>
    (kw.isPrefixOf (c :: rest) && boundaryOk prev
      && boundaryOk ((c :: rest).drop kw.length).head?)
    || wwGo kw (some c) rest

/-- Whole-word occurrence of `kw` in `s`: the model of
`re.search(r"\b kw \b", s)` succeeding. -/
def hasWholeWord (kw s : List Char) : Bool := wwGo kw none s

def contains_forbidden (sql : List Char) : List (List Char) :=
  FORBIDDEN_WORDS.filter fun kw => hasWholeWord kw (sql.map toLowerChar)

/-! ## has_select_from, uses_known_tables (src/app.py lines 102-114) -/

/-- Python substring containment `needle in hay`. -/
def containsSub (needle : List Char) : List Char → Bool
  | [] => needle.isEmpty
  | c :: rest => needle.isPrefixOf (c :: rest) || containsSub needle rest

def has_select_from (sql : List Char) : Bool :=
  containsSub "select".data (sql.map toLowerChar)
    && containsSub "from".data (sql.map toLowerChar)

def uses_known_tables (sql : List Char) : Bool × List (List Char) :=
  let used := ALLOWED_TABLES.filter fun t => hasWholeWord t (sql.map toLowerChar)
  (decide (0 < used.length), used)

/-! ## basic_sqlparse_ok (src/app.py lines 116-130)

The external `sqlparse` library is a parameter: it returns a list of parsed
statements (each with an optional first token and a normalized text) or
raises (`Except.error`).  The `try/except` of the source maps any raise to
`False`. -/

structure SqlStmt where
  firstToken : Option Unit
  normalized : List Char

/-- Behaviour of the external `sqlparse.parse` call. -/
abbrev ParseFn := List Char → Except Unit (List SqlStmt)

def basic_sqlparse_ok (parse : ParseFn) (sql : List Char) : Bool :=
  match parse sql with
  | Except.error _ => false
  | Except.ok [] => false
  | Except.ok (stmt :: _) =>
    match stmt.firstToken with
    | none => false
    | some _ => "select".data.isPrefixOf ((trim stmt.normalized).map toLowerChar)

/-! ## validate_sql (src/app.py lines 132-167) -/

def EMPTY_SQL_MSG : List Char := "Empty SQL.".data
def MULTI_STMT_MSG : List Char := "Multiple statements detected (more than 1 semicolon).".data
def END_SEMI_MSG : List Char :=
  "SQL should end with a semicolon ".data ++ [squote, ';', squote, '.']
def PAREN_MSG : List Char := "Mismatched parentheses/brackets.".data
def QUOTE_MSG : List Char := "Mismatched quotes.".data
def forbiddenMsg (forb : List (List Char)) : List Char :=
  "Forbidden keyword(s) present: ".data ++ joinSep ", ".data forb
def SELECT_FROM_MSG : List Char := "Missing SELECT and/or FROM clause.".data
def TABLES_MSG : List Char := "No known schema tables referenced (Users, Orders, Products).".data
def SQLPARSE_MSG : List Char := "sqlparse could not detect a valid SELECT statement (parsing error).".data

/-- The error list of `validate_sql` on a candidate whose trimmed text is
non-empty: each check appends zero or one message, in source order. -/
def validateErrors (parse : ParseFn) (trimmed : List Char) : List (List Char) :=
  (if 1 < trimmed.count ';' then [MULTI_STMT_MSG] else [])
    ++ (if endsWithSemi trimmed then [] else [END_SEMI_MSG])
    ++ (if parentheses_match trimmed then [] else [PAREN_MSG])
    ++ (if quotes_match trimmed then [] else [QUOTE_MSG])
    ++ (if contains_forbidden trimmed = [] then []
        else [forbiddenMsg (contains_forbidden trimmed)])
    ++ (if has_select_from trimmed then [] else [SELECT_FROM_MSG])
    ++ (if (uses_known_tables trimmed).1 then [] else [TABLES_MSG])
    ++ (if basic_sqlparse_ok parse trimmed then [] else [SQLPARSE_MSG])

/-- `validate_sql`: returns (is_valid, list of error messages).  The empty
candidate short-circuits with the single error "Empty SQL."; otherwise every
check runs and the verdict is `len(errors) == 0`. -/
def validate_sql (parse : ParseFn) (sql : List Char) : Bool × List (List Char) :=
  let trimmed := trim sql
  if trimmed = [] then (false, [EMPTY_SQL_MSG])
  else
    let errors := validateErrors parse trimmed
    (errors.isEmpty, errors)

/-! ## Candidate extraction (src/app.py lines 232-243)

`re.search(r"(?s)(select\b.*?;)", candidate, re.IGNORECASE)`: the match, if
any, starts at the leftmost position where case-insensitive `select` is
followed by a word boundary with some `;` later in the text, and ends at the
first `;` at or after that position (lazy `.*?` under DOTALL). -/

/-- Index of the first `;`. -/
def findSemi : List Char → Option Nat
  | [] => none
  | c :: rest => if c = ';' then some 0 else (findSemi rest).map (· + 1)

/-- Does case-insensitive `select` followed by a word boundary start this
suffix? -/
def selectBoundary (s : List Char) : Bool :=
  "select".data.isPrefixOf (s.map toLowerChar)
    && (match s.drop 6 with
        | [] => true
        | c :: _ => !isWordChar c)

/-- The regex match anchored at the start of this suffix: the span from
`select` to the first following `;`, if both are present. -/
def matchAt (s : List Char) : Option (List Char) :=
  if selectBoundary s then
    match findSemi (s.drop 6) with
    | some k => some (s.take (6 + k + 1))
    | none => none
  else none

/-- `re.search`: try every start position, leftmost first. -/
def sqlSearch : List Char → Option (List Char)
  | [] => none
  | c :: rest =>
    match matchAt (c :: rest) with
    | some m => some m
    | none => sqlSearch rest

/-- Python `str.splitlines()` (on the line breaks the candidates can
contain: \n, \r\n, \r). -/
def slGo (acc : List Char) : List Char → List (List Char)
  | [] => if acc = [] then [] else [acc.reverse]
  | '\r' :: '\n' :: rest => acc.reverse :: slGo [] rest
  | '\n' :: rest => acc.reverse :: slGo [] rest
  | '\r' :: rest => acc.reverse :: slGo [] rest
  | c :: rest => slGo (c :: acc) rest

def splitlines (s : List Char) : List (List Char) := slGo [] s

/-- The extraction step of the retry loop (src/app.py lines 233-243): take
the first `select ... ;` span (trimmed) if the regex matches; otherwise
collapse the text to one line (trimmed non-empty lines joined by single
spaces) and append a `;` if missing.  The source's final `str(...)` cast is
the identity on strings and is omitted. -/
def extract_candidate (candidate : List Char) : List Char :=
  match sqlSearch candidate with
  | some m => trim m
  | none =>
    let joined := joinSep [' ']
      ((splitlines (trim candidate)).filterMap fun l =>
        if trim l = [] then none else some (trim l))
    if endsWithSemi joined then joined else joined ++ [';']

/-! ## Prompt template (src/app.py lines 24-67) and the retry loop
(src/app.py lines 213-266)

`BASE_PROMPT.format(question=..., previous_sql=..., error_hint=...)` splices
the three values into the fixed template. -/

def BASE_PROMPT_P1 : List Char :=
  ("\nYou are an SQL generator assistant. Use ONLY the schema below and produce RAW SQL as the only output (no explanation).\n\nSchema:\nTABLE Users(user_id, name, email)\nTABLE Orders(order_id, user_id, product_id, quantity, order_date)\nTABLE Products(product_id, name, price)\n\nRules:\n1) Output ONLY valid SQL (single statement) and nothing else.\n2) Use JOINs when necessary to combine tables.\n3) Do NOT use forbidden commands: DROP, DELETE, TRUNCATE, UPDATE, INSERT, ALTER, CREATE.\n4) Always use table names exactly as in the schema (Users, Orders, Products).\n5) Keep queries concise and produce valid SQL statements ending with a semicolon.\n\nExamples:\nQ: List all users who placed an order.\nA: SELECT u.name, u.email\n   FROM Users u\n   JOIN Orders o ON u.user_id = o.user_id;\n\nQ: Show order id, user name and product name for all orders.\nA: SELECT o.order_id, u.name AS user_name, p.name AS product_name\n   FROM Orders o\n   JOIN Users u ON o.user_id = u.user_id\n   JOIN Products p ON o.product_id = p.product_id;\n\nQ: What are the top 5 most expensive products?\nA: SELECT name, price\n   FROM Products\n   ORDER BY price DESC\n   LIMIT 5;\n\nNow generate SQL for the question below. Output ONLY the SQL statement.\n\nQUESTION:\n").data

def BASE_PROMPT_P2 : List Char := "\n\nPREVIOUS_SQL:\n".data
def BASE_PROMPT_P3 : List Char := "\n\nERROR_HINT:\n".data
def BASE_PROMPT_P4 : List Char := "\n".data

def format_prompt (question previous_sql error_hint : List Char) : List Char :=
  BASE_PROMPT_P1 ++ question ++ BASE_PROMPT_P2 ++ previous_sql
    ++ BASE_PROMPT_P3 ++ error_hint ++ BASE_PROMPT_P4

/-- Behaviour of the text-generation backend across the run: from the attempt
number and the prompt to the raw generated text, or `Except.error` when the
backend raises on that call. -/
abbrev GenFn := Nat → List Char → Except Unit (List Char)

/-- `generate_sql_from_model` (src/app.py lines 191-209): calls the backend
and strips the returned text; an exception of the backend propagates to the
caller (which catches it). -/
def generate_sql_from_model (gen : GenFn) (attempt : Nat) (prompt : List Char) :
    Except Unit (List Char) :=
  (gen attempt prompt).map trim

/-- What one iteration of the retry loop records: the extracted candidate and
its validation result. -/
structure Attempt where
  candidate : List Char
  ok : Bool
  errors : List (List Char)
deriving DecidableEq

/-- One iteration of the loop body (src/app.py lines 222-247): build the
prompt, call the backend (an exception is caught and replaced by the empty
string), extract the candidate, validate it. -/
def attempt_step (parse : ParseFn) (gen : GenFn) (question : List Char)
    (attempt : Nat) (previous_sql error_hint : List Char) : Attempt :=
  let prompt := format_prompt question previous_sql error_hint
  let candidate : List Char :=
    match generate_sql_from_model gen attempt prompt with
    | Except.ok t => t
    | Except.error _ => []
  let candidate_sql := extract_candidate candidate
  let v := validate_sql parse candidate_sql
  ⟨candidate_sql, v.1, v.2⟩

/-- The separator of the accumulated error hint: `" | ".join(errors)`. -/
def errSep : List Char := " | ".data

/-- The `for attempt in range(1, max_retries + 1)` loop (src/app.py lines
221-261), by recursion on the remaining attempts.  Returns (the attempts
performed, `final_sql` if some attempt validated, the final `previous_sql`).
On failure the loop sets `previous_sql` to the candidate and `error_hint` to
the joined errors before the next attempt. -/
def run_loop (parse : ParseFn) (gen : GenFn) (question : List Char) :
    Nat → Nat → List Char → List Char → List Attempt × Option (List Char) × List Char
  | 0, _, previous_sql, _ => ([], none, previous_sql)
  | n + 1, attempt, previous_sql, error_hint =>
    let a := attempt_step parse gen question attempt previous_sql error_hint
    if a.ok then ([a], some a.candidate, previous_sql)
    else
      let r := run_loop parse gen question n (attempt + 1) a.candidate
        (joinSep errSep a.errors)
      (a :: r.1, r.2.1, r.2.2)

/-- The terminal value of the loop: `succeeded = true` is the SUCCEEDED state
(some attempt validated), `succeeded = false` the EXHAUSTED state. -/
structure RunResult where
  attempts : List Attempt
  outcome : List Char
  succeeded : Bool
deriving DecidableEq

/-- `run` up to its loop end (src/app.py lines 213-266): after the loop,
`final_sql` is the validated candidate, or `previous_sql or ""` (which equals
`previous_sql`, initialised to the empty string) when every attempt failed. -/
def run (parse : ParseFn) (gen : GenFn) (question : List Char)
    (max_retries : Nat) : RunResult :=
  let r := run_loop parse gen question max_retries 1 [] []
  match r.2.1 with
  | some sql => ⟨r.1, sql, true⟩
  | none => ⟨r.1, r.2.2, false⟩

/-- The stdout post-processing of `final_sql` (src/app.py lines 269-276). -/
def output_of (final_sql : List Char) : List Char :=
  match sqlSearch final_sql with
  | some m => trim m
  | none =>
    let o := trim final_sql
    if o = [] then o else if endsWithSemi o then o else o ++ [';']

/-! ## Spec-side predicates (used only to state claims) -/

/-- Spec-side balanced-bracket predicate (LIFO matching discipline): the
language generated by `D -> empty | open D close D`, over bracket characters
only. -/
inductive Balanced : List Char → Prop
  | nil : Balanced []
  | pair (b : Char) (u v : List Char) (hb : isOpenB b = true)
      (hu : Balanced u) (hv : Balanced v) : Balanced (b :: u ++ closeOf b :: v)

/-- Intermediate relation for the stack algorithm: the input closes every
pending opener of `stack` (most recent first), interleaved with balanced
segments, and ends balanced. -/
inductive ClosesAll : List Char → List Char → Prop
  | base (s : List Char) (hs : Balanced s) : ClosesAll [] s
  | step (b : Char) (stack u v : List Char) (hb : isOpenB b = true)
      (hu : Balanced u) (hv : ClosesAll stack v) :
      ClosesAll (b :: stack) (u ++ closeOf b :: v)

/-- Spec-side whole-word occurrence: `kw` occurs in `low` with no word
character adjacent on either side. -/
def WholeWordAt (kw low : List Char) : Prop :=
  ∃ pre post, low = pre ++ kw ++ post
    ∧ boundaryOk pre.getLast? = true ∧ boundaryOk post.head? = true

/-! ## Concrete scenario data -/

/-- A backend that raises on every call (end-to-end scenario 4). -/
def genRaise : GenFn := fun _ _ => Except.error ()

def dropSql : List Char := "DROP TABLE Users;".data

/-- A backend that always returns `"DROP TABLE Users;"` (end-to-end
scenario 2). -/
def genDrop : GenFn := fun _ _ => Except.ok dropSql

/-- A `sqlparse` behaviour that raises on every input. -/
def parse0 : ParseFn := fun _ => Except.error ()

/-- The attempt record every iteration produces when the backend raises:
the caught exception gives candidate text `""`, which extracts to `";"`. -/
def semiAttempt (parse : ParseFn) : Attempt :=
  ⟨[';'], (validate_sql parse [';']).1, (validate_sql parse [';']).2⟩

/-- The attempt record every iteration produces when the backend always
returns `"DROP TABLE Users;"`. -/
def dropAttempt (parse : ParseFn) : Attempt :=
  ⟨dropSql, (validate_sql parse dropSql).1, (validate_sql parse dropSql).2⟩

/-! ## Basic lemmas about the string helpers -/

lemma getLast?_dropWhile {p : Char → Bool} :
    ∀ {l : List Char} {c : Char}, l.getLast? = some c → p c = false →
      (l.dropWhile p).getLast? = some c
  | [], c, h, _ => by simp at h
  | [a], c, h, hc => by
      simp only [List.getLast?_singleton, Option.some.injEq] at h
      subst h
      simp [List.dropWhile, hc]
  | a :: b :: l, c, h, hc => by
      rw [List.getLast?_cons_cons] at h
      by_cases hp : p a
      · simpa [List.dropWhile, hp] using getLast?_dropWhile h hc
      · simp [List.dropWhile, hp, List.getLast?_cons_cons, h]

lemma trim_getLast {l : List Char} {c : Char}
    (h : l.getLast? = some c) (hc : isPySpace c = false) :
    (trim l).getLast? = some c := by
  have h1 : ((l.dropWhile isPySpace).reverse).head? = some c := by
    rw [List.head?_reverse]
    exact getLast?_dropWhile h hc
  rcases hd : (l.dropWhile isPySpace).reverse with _ | ⟨a, t⟩
  · rw [hd] at h1; simp at h1
  · rw [hd] at h1
    simp only [List.head?_cons, Option.some.injEq] at h1
    have hca : isPySpace a = false := by rw [h1]; exact hc
    have ht : trim l = (a :: t).reverse := by
      rw [trim, hd, List.dropWhile_cons]
      simp [hca]
    rw [ht, List.getLast?_reverse]
    simp [h1]

lemma ne_nil_of_getLast? {l : List Char} {c : Char} (h : l.getLast? = some c) :
    l ≠ [] := by
  intro hn; subst hn; simp at h

lemma trim_ne_nil_of_getLast {l : List Char} {c : Char}
    (h : l.getLast? = some c) (hc : isPySpace c = false) : trim l ≠ [] :=
  ne_nil_of_getLast? (trim_getLast h hc)

lemma trim_eq_self {l : List Char}
    (h1 : ∀ x, l.head? = some x → isPySpace x = false)
    (h2 : ∀ x, l.getLast? = some x → isPySpace x = false) : trim l = l := by
  rcases l with _ | ⟨a, l'⟩
  · rfl
  · have ha : isPySpace a = false := h1 a rfl
    have hd : (a :: l').dropWhile isPySpace = a :: l' := by
      rw [List.dropWhile_cons]; simp [ha]
    rcases hr : (a :: l').reverse with _ | ⟨b, rt⟩
    · exact absurd hr (by simp)
    · have hb : isPySpace b = false := by
        apply h2
        rw [← List.head?_reverse, hr]
        rfl
      have ht : trim (a :: l') = (b :: rt).reverse := by
        rw [trim, hd, hr, List.dropWhile_cons]
        simp [hb]
      rw [ht, ← hr, List.reverse_reverse]

/-! ## Lemmas about validate_sql -/

lemma validate_empty {parse : ParseFn} {sql : List Char} (h : trim sql = []) :
    validate_sql parse sql = (false, [EMPTY_SQL_MSG]) := by
  simp [validate_sql, h]

lemma validate_snd_eq {parse : ParseFn} {sql : List Char} (h : trim sql ≠ []) :
    (validate_sql parse sql).2 = validateErrors parse (trim sql) := by
  simp [validate_sql, h]

lemma validate_fst_iff (parse : ParseFn) (sql : List Char) :
    (validate_sql parse sql).1 = true ↔ (validate_sql parse sql).2 = [] := by
  by_cases h : trim sql = [] <;>
    simp [validate_sql, h, List.isEmpty_iff]

lemma validate_fst_false_of_mem {parse : ParseFn} {sql : List Char}
    {x : List Char} (hx : x ∈ (validate_sql parse sql).2) :
    (validate_sql parse sql).1 = false := by
  rcases hb : (validate_sql parse sql).1 with _ | _
  · rfl
  · rw [(validate_fst_iff parse sql).mp hb] at hx
    simp at hx

/-- C1: for every input string (and every behaviour of the external parser),
`validate_sql` returns a pair whose verdict is true iff the error list is
empty (strict biconditional). -/
theorem validate_passed_iff_no_errors (parse : ParseFn) (sql : List Char) :
    (validate_sql parse sql).1 = true ↔ (validate_sql parse sql).2 = [] :=
  validate_fst_iff parse sql

/-- C2: `validate_sql` is total over every behaviour of the external
`sqlparse` library, including behaviours that raise (`Except.error`): it
always returns a (Bool, error-list) pair, a raising parser makes
`basic_sqlparse_ok` return false instead of propagating, and on a non-empty
trimmed candidate the raise surfaces only as the sqlparse validation error. -/
theorem validate_total_catches_raises (parse : ParseFn) (sql : List Char) :
    (∃ passed errs, validate_sql parse sql = (passed, errs))
    ∧ (∀ e, parse (trim sql) = Except.error e →
        basic_sqlparse_ok parse (trim sql) = false)
    ∧ (∀ e, parse (trim sql) = Except.error e → trim sql ≠ [] →
        (validate_sql parse sql).1 = false
          ∧ SQLPARSE_MSG ∈ (validate_sql parse sql).2) := by
  refine ⟨⟨_, _, rfl⟩, ?_, ?_⟩
  · intro e he
    simp [basic_sqlparse_ok, he]
  · intro e he hne
    have hb : basic_sqlparse_ok parse (trim sql) = false := by
      simp [basic_sqlparse_ok, he]
    have hmem : SQLPARSE_MSG ∈ (validate_sql parse sql).2 := by
      rw [validate_snd_eq hne]
      simp [validateErrors, hb]
    exact ⟨validate_fst_false_of_mem hmem, hmem⟩

/-! ## Lemmas about the retry loop -/

lemma run_loop_length_le (parse : ParseFn) (gen : GenFn) (question : List Char) :
    ∀ n k prev hint, (run_loop parse gen question n k prev hint).1.length ≤ n := by
  intro n
  induction n with
  | zero => intro k prev hint; simp [run_loop]
  | succ n ih =>
    intro k prev hint
    simp only [run_loop]
    by_cases h : (attempt_step parse gen question k prev hint).ok <;> simp [h]
    exact ih (k + 1) _ _

/-- C3: for every question, retry budget and behaviour of the generation
backend (including always raising or always returning the empty string), the
retry loop performs at most `max_retries` attempts; termination itself is by
construction, the loop being structural recursion on the remaining budget. -/
theorem run_within_budget (parse : ParseFn) (gen : GenFn)
    (question : List Char) (max_retries : Nat) :
    (run parse gen question max_retries).attempts.length ≤ max_retries := by
  have h := run_loop_length_le parse gen question max_retries 1 [] []
  simp only [run]
  rcases hm : (run_loop parse gen question max_retries 1 [] []).2.1 with _ | sql <;>
    simp [hm] <;> exact h

lemma run_loop_const {parse : ParseFn} {gen : GenFn} {question : List Char}
    {att : Attempt}
    (hstep : ∀ k prev hint, attempt_step parse gen question k prev hint = att)
    (hok : att.ok = false) :
    ∀ n k prev hint, run_loop parse gen question n k prev hint
      = (List.replicate n att, none, if n = 0 then prev else att.candidate) := by
  intro n
  induction n with
  | zero => intro k prev hint; simp [run_loop]
  | succ n ih =>
    intro k prev hint
    simp only [run_loop, hstep, hok, Bool.false_eq_true, if_neg, List.replicate_succ]
    rw [ih]
    rcases n with _ | n <;> simp

lemma run_loop_succ_fail {parse : ParseFn} {gen : GenFn} {question : List Char}
    {k : Nat} {prev hint : List Char}
    (hok : (attempt_step parse gen question k prev hint).ok = false) (n : Nat) :
    run_loop parse gen question (n + 1) k prev hint
      = (attempt_step parse gen question k prev hint
          :: (run_loop parse gen question n (k + 1)
              (attempt_step parse gen question k prev hint).candidate
              (joinSep errSep (attempt_step parse gen question k prev hint).errors)).1,
         (run_loop parse gen question n (k + 1)
              (attempt_step parse gen question k prev hint).candidate
              (joinSep errSep (attempt_step parse gen question k prev hint).errors)).2.1,
         (run_loop parse gen question n (k + 1)
              (attempt_step parse gen question k prev hint).candidate
              (joinSep errSep (attempt_step parse gen question k prev hint).errors)).2.2) := by
  simp [run_loop, hok]

lemma run_loop_all_fail {parse : ParseFn} {gen : GenFn} {question : List Char} :
    ∀ n k prev hint,
      (∀ a ∈ (run_loop parse gen question n k prev hint).1, a.ok = false) →
      (run_loop parse gen question n k prev hint).2.1 = none
      ∧ (run_loop parse gen question n k prev hint).1.length = n
      ∧ (run_loop parse gen question n k prev hint).2.2
          = (((run_loop parse gen question n k prev hint).1.getLast?).map
              Attempt.candidate).getD prev := by
  intro n
  induction n with
  | zero => intro k prev hint _; simp [run_loop]
  | succ n ih =>
    intro k prev hint hall
    by_cases hok : (attempt_step parse gen question k prev hint).ok
    · exfalso
      have hmem : (attempt_step parse gen question k prev hint)
          ∈ (run_loop parse gen question (n + 1) k prev hint).1 := by
        simp [run_loop, hok]
      rw [hall _ hmem] at hok
      exact absurd hok (by simp)
    · have hokf : (attempt_step parse gen question k prev hint).ok = false := by
        simpa using hok
      rw [run_loop_succ_fail hokf n] at hall ⊢
      have hall' : ∀ a ∈ (run_loop parse gen question n (k + 1)
          (attempt_step parse gen question k prev hint).candidate
          (joinSep errSep (attempt_step parse gen question k prev hint).errors)).1,
          a.ok = false := fun a ha => hall a (List.mem_cons_of_mem _ ha)
      obtain ⟨h1, h2, h3⟩ := ih (k + 1) _ _ hall'
      generalize hR : run_loop parse gen question n (k + 1)
          (attempt_step parse gen question k prev hint).candidate
          (joinSep errSep (attempt_step parse gen question k prev hint).errors) = R
        at h1 h2 h3 ⊢
      refine ⟨h1, by simp [h2], ?_⟩
      show R.2.2 = (Option.map Attempt.candidate
        ((attempt_step parse gen question k prev hint :: R.1).getLast?)).getD prev
      rw [h3]
      rcases hr : R.1 with _ | ⟨b, l⟩
      · simp
      · rw [List.getLast?_cons_cons]
        have hs : ((b :: l).getLast?).isSome := by
          rw [List.getLast?_isSome]
          simp
        obtain ⟨x, hx⟩ := Option.isSome_iff_exists.mp hs
        rw [hx]
        rfl

lemma run_attempts_eq (parse : ParseFn) (gen : GenFn) (question : List Char)
    (n : Nat) :
    (run parse gen question n).attempts = (run_loop parse gen question n 1 [] []).1 := by
  simp only [run]
  rcases hm : (run_loop parse gen question n 1 [] []).2.1 with _ | sql <;> simp [hm]

lemma run_of_none {parse : ParseFn} {gen : GenFn} {question : List Char} {n : Nat}
    (h : (run_loop parse gen question n 1 [] []).2.1 = none) :
    run parse gen question n
      = ⟨(run_loop parse gen question n 1 [] []).1,
         (run_loop parse gen question n 1 [] []).2.2, false⟩ := by
  simp [run, h]

/-! ## Facts about the fixed error messages -/

lemma mem_ite_singleton_pos {α : Type} {x m : α} {c : Prop} [Decidable c]
    (h : x ∈ if c then [m] else ([] : List α)) : x = m := by
  split at h
  · simpa using h
  · simp at h

lemma mem_ite_singleton_neg {α : Type} {x m : α} {c : Prop} [Decidable c]
    (h : x ∈ if c then ([] : List α) else [m]) : x = m := by
  split at h
  · simp at h
  · simpa using h

lemma empty_msg_ne_forbiddenMsg (forb : List (List Char)) :
    EMPTY_SQL_MSG ≠ forbiddenMsg forb := by
  intro h
  have h2 := congrArg List.head? h
  have e1 : EMPTY_SQL_MSG.head? = some 'E' := rfl
  have e2 : (forbiddenMsg forb).head? = some 'F' := rfl
  rw [e1, e2] at h2
  simp at h2

/-- The "Empty SQL." message is produced only by the short-circuit branch:
on a candidate with non-empty trimmed text it never appears. -/
lemma empty_msg_not_mem {parse : ParseFn} {sql : List Char}
    (h : trim sql ≠ []) : EMPTY_SQL_MSG ∉ (validate_sql parse sql).2 := by
  rw [validate_snd_eq h]
  intro hmem
  simp only [validateErrors, List.mem_append] at hmem
  rcases hmem with ((((((h1 | h2) | h3) | h4) | h5) | h6) | h7) | h8
  · exact absurd (mem_ite_singleton_pos h1) (by decide)
  · exact absurd (mem_ite_singleton_neg h2) (by decide)
  · exact absurd (mem_ite_singleton_neg h3) (by decide)
  · exact absurd (mem_ite_singleton_neg h4) (by decide)
  · exact absurd (mem_ite_singleton_neg h5) (empty_msg_ne_forbiddenMsg _)
  · exact absurd (mem_ite_singleton_neg h6) (by decide)
  · exact absurd (mem_ite_singleton_neg h7) (by decide)
  · exact absurd (mem_ite_singleton_neg h8) (by decide)

/-! ## The two constant-backend scenarios -/

lemma extract_nil : extract_candidate ([] : List Char) = [';'] := by decide

lemma attempt_step_raise (parse : ParseFn) (question : List Char)
    (k : Nat) (prev hint : List Char) :
    attempt_step parse genRaise question k prev hint = semiAttempt parse := by
  simp [attempt_step, generate_sql_from_model, genRaise, Except.map, extract_nil,
    semiAttempt]

lemma validateErrors_semi (parse : ParseFn) :
    validateErrors parse [';']
      = [SELECT_FROM_MSG, TABLES_MSG]
        ++ (if basic_sqlparse_ok parse [';'] then [] else [SQLPARSE_MSG]) := by
  cases hb : basic_sqlparse_ok parse [';'] <;> simp only [validateErrors, hb] <;> decide

lemma validate_semi_facts (parse : ParseFn) :
    (validate_sql parse [';']).1 = false
    ∧ SELECT_FROM_MSG ∈ (validate_sql parse [';']).2
    ∧ EMPTY_SQL_MSG ∉ (validate_sql parse [';']).2 := by
  have hne : trim [';'] ≠ [] := by decide
  have hmem : SELECT_FROM_MSG ∈ (validate_sql parse [';']).2 := by
    have ht : trim [';'] = [';'] := by decide
    rw [validate_snd_eq hne, ht, validateErrors_semi]
    simp
  exact ⟨validate_fst_false_of_mem hmem, hmem, empty_msg_not_mem hne⟩

lemma trim_dropSql : trim dropSql = dropSql := by decide

lemma extract_dropSql : extract_candidate dropSql = dropSql := by decide

lemma attempt_step_drop (parse : ParseFn) (question : List Char)
    (k : Nat) (prev hint : List Char) :
    attempt_step parse genDrop question k prev hint = dropAttempt parse := by
  simp [attempt_step, generate_sql_from_model, genDrop, Except.map, trim_dropSql,
    extract_dropSql, dropAttempt]

lemma validateErrors_drop (parse : ParseFn) :
    validateErrors parse dropSql
      = [forbiddenMsg ["drop".data], SELECT_FROM_MSG]
        ++ (if basic_sqlparse_ok parse dropSql then [] else [SQLPARSE_MSG]) := by
  cases hb : basic_sqlparse_ok parse dropSql <;>
    simp only [validateErrors, hb] <;> decide

lemma validate_drop_facts (parse : ParseFn) :
    (validate_sql parse dropSql).1 = false
    ∧ forbiddenMsg ["drop".data] ∈ (validate_sql parse dropSql).2 := by
  have hne : trim dropSql ≠ [] := by decide
  have hmem : forbiddenMsg ["drop".data] ∈ (validate_sql parse dropSql).2 := by
    rw [validate_snd_eq hne, trim_dropSql, validateErrors_drop]
    simp
  exact ⟨validate_fst_false_of_mem hmem, hmem⟩

/-- C4 counterexample: with a backend that raises on every call (and a
raising parser behaviour, `max_retries = 1`), the candidate every attempt
passes to the validator is `";"` — not the empty string —, the attempt's
errors are the missing-SELECT/FROM, unknown-table and sqlparse messages —
not "Empty SQL." —, and the Outcome is `";"` — not the empty string. -/
theorem raise_scenario_cex :
    (run parse0 genRaise ['q'] 1).attempts.map Attempt.candidate = [[';']]
    ∧ ([';'] : List Char) ≠ []
    ∧ (run parse0 genRaise ['q'] 1).attempts.map Attempt.errors
        = [[SELECT_FROM_MSG, TABLES_MSG, SQLPARSE_MSG]]
    ∧ EMPTY_SQL_MSG ∉ [SELECT_FROM_MSG, TABLES_MSG, SQLPARSE_MSG]
    ∧ (run parse0 genRaise ['q'] 1).outcome = [';']
    ∧ (run parse0 genRaise ['q'] 1).succeeded = false := by
  decide

/-- C4 (amended): if the generation backend raises on every call, each
attempt's caught exception yields the raw text `""`, which the extraction
step turns into the candidate `";"` (not the empty candidate); every attempt
fails validation — with the missing-SELECT/FROM error, not the "Empty SQL."
error — and after `max_retries` attempts the loop ends EXHAUSTED with
Outcome `";"` (not the empty string). -/
theorem raise_scenario (parse : ParseFn) (question : List Char)
    (max_retries : Nat) (h : 1 ≤ max_retries) :
    (run parse genRaise question max_retries).succeeded = false
    ∧ (run parse genRaise question max_retries).outcome = [';']
    ∧ (run parse genRaise question max_retries).attempts.length = max_retries
    ∧ ∀ a ∈ (run parse genRaise question max_retries).attempts,
        a.candidate = [';'] ∧ a.ok = false
        ∧ SELECT_FROM_MSG ∈ a.errors ∧ EMPTY_SQL_MSG ∉ a.errors := by
  obtain ⟨m, rfl⟩ : ∃ m, max_retries = m + 1 := ⟨max_retries - 1, by omega⟩
  have hloop := run_loop_const
    (attempt_step_raise parse question) (validate_semi_facts parse).1 (m + 1) 1 [] []
  have hrun : run parse genRaise question (m + 1)
      = ⟨List.replicate (m + 1) (semiAttempt parse), [';'], false⟩ := by
    simp [run, hloop, semiAttempt]
  refine ⟨by simp [hrun], by simp [hrun], by simp [hrun], ?_⟩
  intro a ha
  rw [hrun] at ha
  simp only [RunResult.mk.injEq] at ha
  have : a = semiAttempt parse := (List.mem_replicate.mp ha).2
  subst this
  exact ⟨rfl, (validate_semi_facts parse).1, (validate_semi_facts parse).2.1,
    (validate_semi_facts parse).2.2⟩

/-- C4 witness: the amended scenario at the concrete raising parser,
question "q" and budget 2. -/
theorem raise_scenario_witness :
    (run parse0 genRaise ['q'] 2).succeeded = false
    ∧ (run parse0 genRaise ['q'] 2).outcome = [';']
    ∧ (run parse0 genRaise ['q'] 2).attempts.length = 2
    ∧ ∀ a ∈ (run parse0 genRaise ['q'] 2).attempts,
        a.candidate = [';'] ∧ a.ok = false
        ∧ SELECT_FROM_MSG ∈ a.errors ∧ EMPTY_SQL_MSG ∉ a.errors :=
  raise_scenario parse0 ['q'] 2 (by decide)

/-- C5: when every attempt fails validation the loop ends EXHAUSTED with
Outcome the last-produced candidate (or the empty string when no attempt ever
ran); and with a backend that always returns `"DROP TABLE Users;"` every
attempt fails with the forbidden-keyword error naming "drop", and the run
ends EXHAUSTED with Outcome `"DROP TABLE Users;"`. -/
theorem exhausted_outcome_drop_scenario :
    (∀ (parse : ParseFn) (gen : GenFn) (question : List Char) (n : Nat),
      (∀ a ∈ (run parse gen question n).attempts, a.ok = false) →
        (run parse gen question n).succeeded = false
        ∧ (run parse gen question n).outcome
            = (((run parse gen question n).attempts.getLast?).map
                Attempt.candidate).getD [])
    ∧ (∀ (parse : ParseFn) (question : List Char) (n : Nat), 1 ≤ n →
        (run parse genDrop question n).succeeded = false
        ∧ (run parse genDrop question n).outcome = dropSql
        ∧ (run parse genDrop question n).attempts.length = n
        ∧ ∀ a ∈ (run parse genDrop question n).attempts,
            a.ok = false ∧ forbiddenMsg ["drop".data] ∈ a.errors) := by
  constructor
  · intro parse gen question n hall
    rw [run_attempts_eq] at hall
    obtain ⟨h1, _, h3⟩ := run_loop_all_fail n 1 [] [] hall
    rw [run_of_none h1]
    exact ⟨rfl, h3⟩
  · intro parse question n h
    obtain ⟨m, rfl⟩ : ∃ m, n = m + 1 := ⟨n - 1, by omega⟩
    have hloop := run_loop_const
      (attempt_step_drop parse question) (validate_drop_facts parse).1 (m + 1) 1 [] []
    have hrun : run parse genDrop question (m + 1)
        = ⟨List.replicate (m + 1) (dropAttempt parse), dropSql, false⟩ := by
      simp [run, hloop, dropAttempt]
    refine ⟨by simp [hrun], by simp [hrun], by simp [hrun], ?_⟩
    intro a ha
    rw [hrun] at ha
    simp only [RunResult.mk.injEq] at ha
    have : a = dropAttempt parse := (List.mem_replicate.mp ha).2
    subst this
    exact ⟨(validate_drop_facts parse).1, (validate_drop_facts parse).2⟩

/-- C5 witness: the DROP scenario at the concrete raising parser, question
"q" and budget 2. -/
theorem drop_scenario_witness :
    (run parse0 genDrop ['q'] 2).succeeded = false
    ∧ (run parse0 genDrop ['q'] 2).outcome = dropSql
    ∧ (run parse0 genDrop ['q'] 2).attempts.length = 2
    ∧ ∀ a ∈ (run parse0 genDrop ['q'] 2).attempts,
        a.ok = false ∧ forbiddenMsg ["drop".data] ∈ a.errors :=
  exhausted_outcome_drop_scenario.2 parse0 ['q'] 2 (by decide)

/-! ## The whole-word scan: correctness of the boundary search -/

lemma getLast?_cons_or (c : Char) (pre : List Char) :
    (c :: pre).getLast? = pre.getLast?.or (some c) := by
  rcases pre with _ | ⟨d, l⟩
  · rfl
  · rw [List.getLast?_cons_cons]
    have hs : ((d :: l).getLast?).isSome := by
      rw [List.getLast?_isSome]
      simp
    obtain ⟨x, hx⟩ := Option.isSome_iff_exists.mp hs
    rw [hx]
    rfl

lemma wwGo_iff {kw : List Char} (hkw : kw ≠ []) :
    ∀ (s : List Char) (prev : Option Char),
      wwGo kw prev s = true
      ↔ ∃ pre post, s = pre ++ kw ++ post
          ∧ boundaryOk (pre.getLast?.or prev) = true
          ∧ boundaryOk post.head? = true := by
  intro s
  induction s with
  | nil =>
    intro prev
    simp only [wwGo]
    constructor
    · intro h
      exact absurd h (by simp)
    · rintro ⟨pre, post, habs, -, -⟩
      exfalso
      rcases pre with _ | ⟨p, pre⟩
      · simp only [List.nil_append] at habs
        obtain ⟨h3, -⟩ := List.append_eq_nil.mp habs.symm
        exact hkw h3
      · simp at habs
  | cons c rest ih =>
    intro prev
    simp only [wwGo, Bool.or_eq_true, Bool.and_eq_true]
    constructor
    · rintro (⟨⟨hpref, hb⟩, ha⟩ | hrec)
      · obtain ⟨post, hpost⟩ := List.isPrefixOf_iff_prefix.mp hpref
        refine ⟨[], post, by rw [← hpost]; rfl, by simpa using hb, ?_⟩
        rw [← hpost, List.drop_left] at ha
        exact ha
      · obtain ⟨pre', post, hsplit, hb, ha⟩ := (ih (some c)).mp hrec
        refine ⟨c :: pre', post, by rw [hsplit]; rfl, ?_, ha⟩
        rw [getLast?_cons_or]
        rcases hpl : pre'.getLast? with _ | y
        · rw [hpl] at hb
          simpa using hb
        · rw [hpl] at hb
          simpa using hb
    · rintro ⟨pre, post, hsplit, hb, ha⟩
      rcases pre with _ | ⟨d, pre'⟩
      · left
        simp only [List.nil_append] at hsplit
        refine ⟨⟨List.isPrefixOf_iff_prefix.mpr ⟨post, hsplit.symm⟩, by simpa using hb⟩, ?_⟩
        rw [hsplit, List.drop_left]
        exact ha
      · right
        simp only [List.cons_append, List.cons.injEq] at hsplit
        obtain ⟨hdc, hrest⟩ := hsplit
        subst hdc
        apply (ih (some c)).mpr
        refine ⟨pre', post, hrest, ?_, ha⟩
        rw [getLast?_cons_or] at hb
        rcases hpl : pre'.getLast? with _ | y
        · rw [hpl] at hb
          exact hb
        · rw [hpl] at hb
          exact hb

lemma hasWholeWord_iff {kw : List Char} (hkw : kw ≠ []) (s : List Char) :
    hasWholeWord kw s = true ↔ WholeWordAt kw s := by
  rw [hasWholeWord, wwGo_iff hkw s none]
  unfold WholeWordAt
  simp only [Option.or_none]

lemma forbidden_words_ne_nil : ∀ kw ∈ FORBIDDEN_WORDS, kw ≠ [] := by decide

/-- C6: forbidden-keyword detection is exactly case-insensitive whole-word
search — a denylist verb is reported iff it occurs in the lowercased text
with no word character adjacent on either side — so "UPDATE Users SET..."
is flagged while "updated_at" alone is not, and all matching keywords are
collected, not just the first. -/
theorem forbidden_scan_whole_word :
    (∀ (sql kw : List Char),
      kw ∈ contains_forbidden sql
        ↔ kw ∈ FORBIDDEN_WORDS ∧ WholeWordAt kw (sql.map toLowerChar))
    ∧ "update".data ∈ contains_forbidden "UPDATE Users SET name = 0;".data
    ∧ "update".data ∉ contains_forbidden "SELECT updated_at FROM Users;".data
    ∧ "drop".data ∈ contains_forbidden "DROP TABLE a; DELETE FROM b;".data
    ∧ "delete".data ∈ contains_forbidden "DROP TABLE a; DELETE FROM b;".data := by
  refine ⟨?_, by decide, by decide, by decide, by decide⟩
  intro sql kw
  rw [contains_forbidden, List.mem_filter]
  constructor
  · rintro ⟨hmem, hww⟩
    exact ⟨hmem, (hasWholeWord_iff (forbidden_words_ne_nil kw hmem) _).mp hww⟩
  · rintro ⟨hmem, hww⟩
    exact ⟨hmem, (hasWholeWord_iff (forbidden_words_ne_nil kw hmem) _).mpr hww⟩

/-- C8: on an empty trimmed candidate `validate_sql` short-circuits with the
single "Empty SQL." error; on a non-empty trimmed candidate no check is
skipped — the error list contains the message of every failing check. -/
theorem validate_short_circuit_and_collects :
    (∀ (parse : ParseFn) (sql : List Char), trim sql = [] →
      validate_sql parse sql = (false, [EMPTY_SQL_MSG]))
    ∧ (∀ (parse : ParseFn) (sql : List Char), trim sql ≠ [] →
        (1 < (trim sql).count ';' → MULTI_STMT_MSG ∈ (validate_sql parse sql).2)
        ∧ (endsWithSemi (trim sql) = false → END_SEMI_MSG ∈ (validate_sql parse sql).2)
        ∧ (parentheses_match (trim sql) = false → PAREN_MSG ∈ (validate_sql parse sql).2)
        ∧ (quotes_match (trim sql) = false → QUOTE_MSG ∈ (validate_sql parse sql).2)
        ∧ (contains_forbidden (trim sql) ≠ [] →
            forbiddenMsg (contains_forbidden (trim sql)) ∈ (validate_sql parse sql).2)
        ∧ (has_select_from (trim sql) = false →
            SELECT_FROM_MSG ∈ (validate_sql parse sql).2)
        ∧ ((uses_known_tables (trim sql)).1 = false →
            TABLES_MSG ∈ (validate_sql parse sql).2)
        ∧ (basic_sqlparse_ok parse (trim sql) = false →
            SQLPARSE_MSG ∈ (validate_sql parse sql).2)) := by
  refine ⟨fun parse sql h => validate_empty h, ?_⟩
  intro parse sql h
  refine ⟨?_, ?_, ?_, ?_, ?_, ?_, ?_, ?_⟩ <;> intro hc <;>
    rw [validate_snd_eq h] <;> simp [validateErrors, hc]

/-- C8 witness: a concrete candidate failing five checks at once collects
all five messages. -/
theorem validate_collects_witness :
    END_SEMI_MSG ∈ (validate_sql parse0 "DROP TABLE x".data).2
    ∧ forbiddenMsg ["drop".data] ∈ (validate_sql parse0 "DROP TABLE x".data).2
    ∧ SELECT_FROM_MSG ∈ (validate_sql parse0 "DROP TABLE x".data).2
    ∧ TABLES_MSG ∈ (validate_sql parse0 "DROP TABLE x".data).2
    ∧ SQLPARSE_MSG ∈ (validate_sql parse0 "DROP TABLE x".data).2 := by
  decide

/-! ## Structure of the regex match of the extraction step -/

lemma findSemi_some : ∀ {l : List Char} {k : Nat}, findSemi l = some k →
    ∃ u v, l = u ++ ';' :: v ∧ u.length = k ∧ ';' ∉ u := by
  intro l
  induction l with
  | nil => intro k h; simp [findSemi] at h
  | cons c rest ih =>
    intro k h
    by_cases hc : c = ';'
    · subst hc
      simp [findSemi] at h
      exact ⟨[], rest, rfl, by simp [h], by simp⟩
    · simp only [findSemi, if_neg hc, Option.map_eq_some'] at h
      obtain ⟨k', hk', hkk⟩ := h
      obtain ⟨u, v, hsplit, hlen, hnot⟩ := ih hk'
      refine ⟨c :: u, v, by rw [hsplit]; rfl, by simp [hlen, hkk], ?_⟩
      intro hmem
      rcases List.mem_cons.mp hmem with h1 | h1
      · exact hc h1.symm
      · exact hnot h1

lemma findSemi_append {u v : List Char} (hu : ';' ∉ u) :
    findSemi (u ++ ';' :: v) = some u.length := by
  induction u with
  | nil => simp [findSemi]
  | cons c u' ih =>
    have hc : ¬ c = ';' := fun h => hu (by rw [h]; exact List.mem_cons_self _ _)
    have ih' := ih fun h => hu (List.mem_cons_of_mem _ h)
    simp [findSemi, hc, ih']

lemma take_append_cons (u : List Char) (x : Char) (v : List Char) :
    (u ++ x :: v).take (u.length + 1) = u ++ [x] := by
  induction u with
  | nil => simp
  | cons c u' ih => simpa using ih

lemma selectBoundary_parts {t : List Char} (h : selectBoundary t = true) :
    (t.map toLowerChar).take 6 = "select".data ∧ 6 ≤ t.length := by
  have h' := h
  simp only [selectBoundary, Bool.and_eq_true] at h'
  obtain ⟨hpref, -⟩ := h'
  obtain ⟨r, hr⟩ := List.isPrefixOf_iff_prefix.mp hpref
  constructor
  · rw [← hr]
    exact List.take_left' rfl
  · have := List.IsPrefix.length_le ⟨r, hr⟩
    simpa using this

lemma matchAt_decomp {t m : List Char} (h : matchAt t = some m) :
    ∃ u v, selectBoundary t = true ∧ t.drop 6 = u ++ ';' :: v ∧ ';' ∉ u
      ∧ m = t.take 6 ++ (u ++ [';']) := by
  unfold matchAt at h
  split at h
  case isTrue hsb =>
    rcases hfs : findSemi (t.drop 6) with _ | k
    · rw [hfs] at h; cases h
    · rw [hfs] at h
      simp only [Option.some.injEq] at h
      obtain ⟨u, v, hsplit, hlen, hnot⟩ := findSemi_some hfs
      refine ⟨u, v, hsb, hsplit, hnot, ?_⟩
      rw [← h]
      have h1 : 6 + k + 1 = 6 + (k + 1) := by omega
      rw [h1, List.take_add, hsplit, ← hlen, take_append_cons]
  case isFalse => cases h

lemma matchAt_self {t u v : List Char} (hsb : selectBoundary t = true)
    (hsplit : t.drop 6 = u ++ ';' :: v) (hnot : ';' ∉ u) :
    matchAt (t.take 6 ++ (u ++ [';'])) = some (t.take 6 ++ (u ++ [';'])) := by
  obtain ⟨htake, hlen6⟩ := selectBoundary_parts hsb
  have hlt : (t.take 6).length = 6 := by
    simp [List.length_take, Nat.min_eq_left hlen6]
  have hdrop : (t.take 6 ++ (u ++ [';'])).drop 6 = u ++ [';'] :=
    List.drop_left' hlt
  have hsb2 : selectBoundary (t.take 6 ++ (u ++ [';'])) = true := by
    unfold selectBoundary
    rw [Bool.and_eq_true]
    constructor
    · apply List.isPrefixOf_iff_prefix.mpr
      refine ⟨(u ++ [';']).map toLowerChar, ?_⟩
      have h1 : (List.take 6 t).map toLowerChar = "select".data := by
        rw [List.map_take toLowerChar t 6, htake]
      rw [← h1, ← List.map_append]
    · rw [hdrop]
      rcases u with _ | ⟨a, u'⟩
      · decide
      · have h2' := hsb
        simp only [selectBoundary, Bool.and_eq_true] at h2'
        have h2 := h2'.2
        rw [hsplit] at h2
        exact h2
  have hfs : findSemi ((t.take 6 ++ (u ++ [';'])).drop 6) = some u.length := by
    rw [hdrop]
    have h0 : u ++ [';'] = u ++ ';' :: [] := rfl
    rw [h0]
    exact findSemi_append hnot
  have hml : (t.take 6 ++ (u ++ [';'])).length = 6 + u.length + 1 := by
    simp [hlt]
    omega
  unfold matchAt
  rw [hsb2]
  simp only [if_true, hfs]
  rw [← hml]
  simp [List.take_length]

lemma sqlSearch_some_matchAt : ∀ {s m : List Char}, sqlSearch s = some m →
    ∃ t, matchAt t = some m := by
  intro s
  induction s with
  | nil => intro m h; simp [sqlSearch] at h
  | cons c rest ih =>
    intro m h
    rcases hma : matchAt (c :: rest) with _ | m'
    · rw [sqlSearch, hma] at h
      exact ih h
    · rw [sqlSearch, hma] at h
      simp only [Option.some.injEq] at h
      exact ⟨c :: rest, by rw [hma, h]⟩

lemma sqlSearch_of_matchAt {m : List Char} (h : matchAt m = some m) (hne : m ≠ []) :
    sqlSearch m = some m := by
  rcases m with _ | ⟨c, rest⟩
  · exact absurd rfl hne
  · rw [sqlSearch, h]

lemma toLowerChar_space {a : Char} (h : isPySpace a = true) : toLowerChar a = a := by
  have h2 : a = ' ' ∨ a = '\t' ∨ a = '\n' ∨ a = '\r'
      ∨ a = Char.ofNat 11 ∨ a = Char.ofNat 12 := by
    simpa [isPySpace, or_assoc] using h
  rcases h2 with rfl | rfl | rfl | rfl | rfl | rfl <;> decide

lemma not_space_of_lower_s {a : Char} (h : toLowerChar a = 's') :
    isPySpace a = false := by
  rcases hsp : isPySpace a with _ | _
  · rfl
  · exfalso
    have ha : a = 's' := by rw [← toLowerChar_space hsp, h]
    rw [ha] at hsp
    exact absurd hsp (by decide)

/-- Every span the extraction regex can return is a fixed point of the whole
search: it starts with case-insensitive `select` at a word boundary, its only
`;` is its last character, it has no surrounding whitespace, and re-running
the search on it returns it whole. -/
lemma sqlSearch_fixed {s m : List Char} (h : sqlSearch s = some m) :
    trim m = m ∧ sqlSearch m = some m ∧ m.getLast? = some ';' := by
  obtain ⟨t, ht⟩ := sqlSearch_some_matchAt h
  obtain ⟨u, v, hsb, hsplit, hnot, hm⟩ := matchAt_decomp ht
  obtain ⟨htake, hlen6⟩ := selectBoundary_parts hsb
  have hlast : m.getLast? = some ';' := by
    rw [hm]
    have : t.take 6 ++ (u ++ [';']) = (t.take 6 ++ u) ++ [';'] := by
      rw [List.append_assoc]
    rw [this]
    exact List.getLast?_concat _
  have hhead : ∃ a, m.head? = some a ∧ toLowerChar a = 's' := by
    have hmap : (m.map toLowerChar).take 6 = "select".data := by
      rw [hm, List.map_append]
      have h1 : ((t.take 6).map toLowerChar) = (t.map toLowerChar).take 6 :=
        List.map_take toLowerChar t 6
      have h2 : ((t.take 6).map toLowerChar).length = 6 := by
        rw [h1, List.length_take, List.length_map]
        exact Nat.min_eq_left hlen6
      rw [List.take_left' h2, h1, htake]
    rcases hmm : m with _ | ⟨a, rest⟩
    · rw [hmm] at hmap
      exact absurd hmap (by decide)
    · refine ⟨a, rfl, ?_⟩
      rw [hmm] at hmap
      have hh := congrArg List.head? hmap
      simpa using hh
  obtain ⟨a, hha, hlow⟩ := hhead
  have htrim : trim m = m := by
    apply trim_eq_self
    · intro x hx
      rw [hha] at hx
      simp only [Option.some.injEq] at hx
      rw [← hx]
      exact not_space_of_lower_s hlow
    · intro x hx
      rw [hlast] at hx
      simp only [Option.some.injEq] at hx
      rw [← hx]
      decide
  have hself : sqlSearch m = some m := by
    have hma : matchAt m = some m := by
      rw [hm]
      exact matchAt_self hsb hsplit hnot
    exact sqlSearch_of_matchAt hma (ne_nil_of_getLast? hlast)
  exact ⟨htrim, hself, hlast⟩

/-- C9 counterexample: the extraction step is not idempotent.  On the text
`"x select a from t"` (no semicolon, junk before `select`) the fallback path
produces `"x select a from t;"`, and extracting again primary-matches
`"select a from t;"`, a different string. -/
theorem extract_not_idempotent_cex :
    extract_candidate (extract_candidate "x select a from t".data)
      ≠ extract_candidate "x select a from t".data
    ∧ extract_candidate "x select a from t".data = "x select a from t;".data
    ∧ extract_candidate "x select a from t;".data = "select a from t;".data := by
  decide

/-- C9 (amended): on every input where the primary select-to-first-semicolon
match succeeds, the extraction step is idempotent (its output is a fixed
point); in particular an already-clean single statement is returned
unchanged.  When only the fallback runs and its output contains a select
keyword preceded by other text, the appended semicolon can enable the
primary match on the second pass, so such fallback outputs need not be fixed
points. -/
theorem extract_primary_fixed_point (s m : List Char)
    (h : sqlSearch s = some m) :
    extract_candidate (extract_candidate s) = extract_candidate s := by
  obtain ⟨htrim, hself, -⟩ := sqlSearch_fixed h
  have h1 : extract_candidate s = m := by
    unfold extract_candidate
    rw [h]
    exact htrim
  rw [h1]
  unfold extract_candidate
  rw [hself]
  exact htrim

/-- C9 witness: the fixed point at a concrete model answer containing a
clean statement. -/
theorem extract_fixed_point_witness :
    extract_candidate (extract_candidate "Answer: SELECT name FROM Users; ok".data)
      = extract_candidate "Answer: SELECT name FROM Users; ok".data :=
  extract_primary_fixed_point "Answer: SELECT name FROM Users; ok".data
    "SELECT name FROM Users;".data (by decide)

/-! ## C10: the extraction step never yields an empty candidate -/

lemma extract_getLast_semi (t : List Char) :
    (extract_candidate t).getLast? = some ';' := by
  rcases hs : sqlSearch t with _ | m
  · have he : extract_candidate t
        = (if endsWithSemi (joinSep [' '] ((splitlines (trim t)).filterMap fun l =>
            if trim l = [] then none else some (trim l))) = true
           then joinSep [' '] ((splitlines (trim t)).filterMap fun l =>
            if trim l = [] then none else some (trim l))
           else joinSep [' '] ((splitlines (trim t)).filterMap fun l =>
            if trim l = [] then none else some (trim l)) ++ [';']) := by
      unfold extract_candidate
      rw [hs]
    rw [he]
    by_cases hj : endsWithSemi (joinSep [' '] ((splitlines (trim t)).filterMap fun l =>
        if trim l = [] then none else some (trim l))) = true
    · rw [if_pos hj]
      exact eq_of_beq hj
    · rw [if_neg hj]
      exact List.getLast?_concat _
  · obtain ⟨htrim, -, hlast⟩ := sqlSearch_fixed hs
    have he : extract_candidate t = trim m := by
      unfold extract_candidate
      rw [hs]
    rw [he, htrim]
    exact hlast

lemma mem_run_loop_attempts {parse : ParseFn} {gen : GenFn} {question : List Char} :
    ∀ n k prev hint a, a ∈ (run_loop parse gen question n k prev hint).1 →
      ∃ kk pp hh, a = attempt_step parse gen question kk pp hh := by
  intro n
  induction n with
  | zero => intro k prev hint a ha; simp [run_loop] at ha
  | succ n ih =>
    intro k prev hint a ha
    by_cases hok : (attempt_step parse gen question k prev hint).ok
    · simp only [run_loop, hok, if_pos] at ha
      simp only [List.mem_singleton] at ha
      exact ⟨k, prev, hint, ha⟩
    · have hokf : (attempt_step parse gen question k prev hint).ok = false := by
        simpa using hok
      rw [run_loop_succ_fail hokf n] at ha
      rcases List.mem_cons.mp ha with h1 | h1
      · exact ⟨k, prev, hint, h1⟩
      · exact ih _ _ _ _ h1

lemma attempt_step_errors_shape (parse : ParseFn) (gen : GenFn)
    (question : List Char) (k : Nat) (prev hint : List Char) :
    ∃ c, (attempt_step parse gen question k prev hint).errors
      = (validate_sql parse (extract_candidate c)).2 := ⟨_, rfl⟩

/-- C10: the extraction step always produces a non-empty candidate (it always
ends in `;`): empty raw text yields the candidate `";"`, and consequently the
validator's "Empty SQL." error is unreachable for every candidate the retry
loop's extraction step produces. -/
theorem extraction_never_empty :
    (∀ t : List Char, extract_candidate t ≠ [])
    ∧ extract_candidate ([] : List Char) = [';']
    ∧ (∀ (parse : ParseFn) (gen : GenFn) (question : List Char) (n : Nat),
        ∀ a ∈ (run parse gen question n).attempts, EMPTY_SQL_MSG ∉ a.errors) := by
  refine ⟨fun t => ne_nil_of_getLast? (extract_getLast_semi t), extract_nil, ?_⟩
  intro parse gen question n a ha
  rw [run_attempts_eq] at ha
  obtain ⟨kk, pp, hh, rfl⟩ := mem_run_loop_attempts n 1 [] [] a ha
  obtain ⟨c, hc⟩ := attempt_step_errors_shape parse gen question kk pp hh
  rw [hc]
  exact empty_msg_not_mem
    (trim_ne_nil_of_getLast (extract_getLast_semi c) (by decide))

/-! ## The bracket check: stack algorithm vs the balanced-bracket language -/

lemma isOpenB_cases {c : Char} (h : isOpenB c = true) :
    c = '(' ∨ c = '[' ∨ c = '{' := by
  simpa [isOpenB, or_assoc] using h

lemma isCloseB_cases {c : Char} (h : isCloseB c = true) :
    c = ')' ∨ c = ']' ∨ c = '}' := by
  simpa [isCloseB, or_assoc] using h

lemma closeOf_pairOf {c : Char} (h : isCloseB c = true) : closeOf (pairOf c) = c := by
  rcases isCloseB_cases h with rfl | rfl | rfl <;> decide

lemma pairOf_closeOf {b : Char} (h : isOpenB b = true) : pairOf (closeOf b) = b := by
  rcases isOpenB_cases h with rfl | rfl | rfl <;> decide

lemma isOpenB_closeOf {b : Char} (h : isOpenB b = true) : isOpenB (closeOf b) = false := by
  rcases isOpenB_cases h with rfl | rfl | rfl <;> decide

lemma isOpenB_pairOf {c : Char} (h : isCloseB c = true) : isOpenB (pairOf c) = true := by
  rcases isCloseB_cases h with rfl | rfl | rfl <;> decide

lemma not_open_of_close {c : Char} (h : isCloseB c = true) : isOpenB c = false := by
  rcases isCloseB_cases h with rfl | rfl | rfl <;> decide

lemma balanced_cons_inv {c : Char} {l : List Char} (h : Balanced (c :: l)) :
    isOpenB c = true ∧ ∃ u v, l = u ++ closeOf c :: v ∧ Balanced u ∧ Balanced v := by
  cases h with
  | pair b u v hb hu hv => exact ⟨hb, u, v, rfl, hu, hv⟩

lemma closesAll_cons_stack_inv {b : Char} {stack s : List Char}
    (h : ClosesAll (b :: stack) s) :
    isOpenB b = true
      ∧ ∃ u v, s = u ++ closeOf b :: v ∧ Balanced u ∧ ClosesAll stack v := by
  cases h with
  | step b' st u v hb hu hv => exact ⟨hb, u, v, rfl, hu, hv⟩

lemma closesAll_nil_inv {s : List Char} (h : ClosesAll [] s) : Balanced s := by
  cases h with
  | base _ hs => exact hs

lemma closesAll_nil_right : ∀ {stack : List Char}, ClosesAll stack [] → stack = [] := by
  intro stack h
  rcases stack with _ | ⟨b, st⟩
  · rfl
  · obtain ⟨-, u, v, heq, -, -⟩ := closesAll_cons_stack_inv h
    exact absurd heq.symm (by rcases u with _ | _ <;> simp)

lemma closesAll_cons_open {c : Char} {stack s : List Char} (hc : isOpenB c = true) :
    ClosesAll stack (c :: s) ↔ ClosesAll (c :: stack) s := by
  constructor
  · intro h
    rcases stack with _ | ⟨b, st⟩
    · obtain ⟨-, u, v, heq, hu, hv⟩ := balanced_cons_inv (closesAll_nil_inv h)
      subst heq
      exact ClosesAll.step c [] u v hc hu (ClosesAll.base v hv)
    · obtain ⟨hb, u, v, heq, hu, hv⟩ := closesAll_cons_stack_inv h
      rcases u with _ | ⟨d, u'⟩
      · simp only [List.nil_append, List.cons.injEq] at heq
        obtain ⟨hcb, -⟩ := heq
        rw [hcb, isOpenB_closeOf hb] at hc
        cases hc
      · simp only [List.cons_append, List.cons.injEq] at heq
        obtain ⟨hdc, hrest⟩ := heq
        subst hdc
        obtain ⟨-, w, w', hu'eq, hw, hw'⟩ := balanced_cons_inv hu
        rw [hu'eq] at hrest
        subst hrest
        rw [List.append_assoc]
        exact ClosesAll.step c (b :: st) w (w' ++ closeOf b :: v) hc hw
          (ClosesAll.step b st w' v hb hw' hv)
  · intro h
    obtain ⟨-, u, v, heq, hu, hv⟩ := closesAll_cons_stack_inv h
    subst heq
    rcases stack with _ | ⟨b, st⟩
    · exact ClosesAll.base _ (Balanced.pair c u v hc hu (closesAll_nil_inv hv))
    · obtain ⟨hb, u₂, v₂, heq2, hu₂, hv₂⟩ := closesAll_cons_stack_inv hv
      subst heq2
      have hstep := ClosesAll.step b st (c :: u ++ closeOf c :: u₂) v₂ hb
        (Balanced.pair c u u₂ hc hu hu₂) hv₂
      have hassoc : (c :: u ++ closeOf c :: u₂) ++ closeOf b :: v₂
          = c :: u ++ closeOf c :: (u₂ ++ closeOf b :: v₂) := by
        simp [List.append_assoc]
      rw [hassoc] at hstep
      exact hstep

lemma closesAll_cons_close {b : Char} {stack s : List Char} (hb : isOpenB b = true) :
    ClosesAll (b :: stack) (closeOf b :: s) ↔ ClosesAll stack s := by
  constructor
  · intro h
    obtain ⟨-, u, v, heq, hu, hv⟩ := closesAll_cons_stack_inv h
    rcases u with _ | ⟨d, u'⟩
    · simp only [List.nil_append, List.cons.injEq] at heq
      obtain ⟨-, hsv⟩ := heq
      rw [hsv]
      exact hv
    · simp only [List.cons_append, List.cons.injEq] at heq
      obtain ⟨hdb, -⟩ := heq
      have hd := (balanced_cons_inv hu).1
      rw [← hdb, isOpenB_closeOf hb] at hd
      cases hd
  · intro h
    have hstep := ClosesAll.step b stack [] s hb Balanced.nil h
    simpa using hstep

lemma closesAll_cons_mismatch {b c : Char} {stack s : List Char}
    (hcc : isCloseB c = true) (hne : b ≠ pairOf c) :
    ¬ ClosesAll (b :: stack) (c :: s) := by
  intro h
  obtain ⟨hb, u, v, heq, hu, -⟩ := closesAll_cons_stack_inv h
  rcases u with _ | ⟨d, u'⟩
  · simp only [List.nil_append, List.cons.injEq] at heq
    obtain ⟨hcb, -⟩ := heq
    exact hne (by rw [hcb, pairOf_closeOf hb])
  · simp only [List.cons_append, List.cons.injEq] at heq
    obtain ⟨hcd, -⟩ := heq
    have hd := (balanced_cons_inv hu).1
    rw [← hcd, not_open_of_close hcc] at hd
    cases hd

lemma closesAll_nil_closer {c : Char} {s : List Char} (hcc : isCloseB c = true) :
    ¬ ClosesAll [] (c :: s) := by
  intro h
  have hopen := (balanced_cons_inv (closesAll_nil_inv h)).1
  rw [not_open_of_close hcc] at hopen
  cases hopen

lemma pmGo_iff_closesAll :
    ∀ (s stack : List Char), (∀ x ∈ s, isBracketB x = true) →
      (pmGo stack s = true ↔ ClosesAll stack s) := by
  intro s
  induction s with
  | nil =>
    intro stack _
    simp only [pmGo]
    constructor
    · intro h
      have hst : stack = [] := by simpa [List.isEmpty_iff] using h
      subst hst
      exact ClosesAll.base [] Balanced.nil
    · intro h
      simp [List.isEmpty_iff, closesAll_nil_right h]
  | cons c rest ih =>
    intro stack hs
    have hrest : ∀ x ∈ rest, isBracketB x = true :=
      fun x hx => hs x (List.mem_cons_of_mem _ hx)
    have hc := hs c (List.mem_cons_self _ _)
    by_cases ho : isOpenB c
    · rw [show pmGo stack (c :: rest) = pmGo (c :: stack) rest from by
        simp [pmGo, ho]]
      rw [ih (c :: stack) hrest]
      exact (closesAll_cons_open ho).symm
    · have hcc : isCloseB c = true := by
        simp only [isBracketB, Bool.or_eq_true] at hc
        rcases hc with h1 | h1
        · exact absurd h1 ho
        · exact h1
      rcases stack with _ | ⟨top, st⟩
      · rw [show pmGo [] (c :: rest) = false from by simp [pmGo, ho, hcc]]
        simp only [Bool.false_eq_true, false_iff]
        exact closesAll_nil_closer hcc
      · by_cases ht : top = pairOf c
        · rw [show pmGo (top :: st) (c :: rest) = pmGo st rest from by
            simp [pmGo, ho, hcc, ht]]
          rw [ih st hrest]
          have htop : isOpenB top = true := by rw [ht]; exact isOpenB_pairOf hcc
          have hc_eq : c = closeOf top := by rw [ht, closeOf_pairOf hcc]
          rw [hc_eq]
          exact (closesAll_cons_close htop).symm
        · rw [show pmGo (top :: st) (c :: rest) = false from by
            simp [pmGo, ho, hcc, ht]]
          simp only [Bool.false_eq_true, false_iff]
          exact closesAll_cons_mismatch hcc ht

lemma pmGo_filter : ∀ (s stack : List Char),
    pmGo stack (s.filter isBracketB) = pmGo stack s := by
  intro s
  induction s with
  | nil => intro stack; rfl
  | cons c rest ih =>
    intro stack
    by_cases ho : isOpenB c
    · have hbr : isBracketB c = true := by simp [isBracketB, ho]
      rw [List.filter_cons_of_pos hbr]
      simp [pmGo, ho, ih]
    · by_cases hcc : isCloseB c
      · have hbr : isBracketB c = true := by simp [isBracketB, hcc]
        rw [List.filter_cons_of_pos hbr]
        rcases stack with _ | ⟨top, st⟩
        · simp [pmGo, ho, hcc]
        · by_cases ht : top = pairOf c
          · simp [pmGo, ho, hcc, ht, ih]
          · simp [pmGo, ho, hcc, ht]
      · have hbr : isBracketB c = false := by simp [isBracketB, ho, hcc]
        rw [List.filter_cons_of_neg (by simp [hbr])]
        simp [pmGo, ho, hcc, ih]

lemma validateErrors_bracketCex (parse : ParseFn) :
    validateErrors parse "SELECT (a, [b)];".data
      = [PAREN_MSG, SELECT_FROM_MSG, TABLES_MSG]
        ++ (if basic_sqlparse_ok parse "SELECT (a, [b)];".data then []
            else [SQLPARSE_MSG]) := by
  cases hb : basic_sqlparse_ok parse "SELECT (a, [b)];".data <;>
    simp only [validateErrors, hb] <;> decide

/-- C7: the bracket check is exactly the LIFO stack discipline —
`parentheses_match` accepts iff the input's bracket characters form a
balanced (properly nested, type-matched) string — so interleaved mismatches
are rejected; in particular validate_sql on `"SELECT (a, [b)];"` reports the
bracket-balance error even though the open/close counts of each bracket kind
are equal. -/
theorem bracket_check_lifo :
    (∀ s : List Char, parentheses_match s = true ↔ Balanced (s.filter isBracketB))
    ∧ (∀ parse : ParseFn,
        PAREN_MSG ∈ (validate_sql parse "SELECT (a, [b)];".data).2)
    ∧ ("SELECT (a, [b)];".data.count '(' = "SELECT (a, [b)];".data.count ')'
        ∧ "SELECT (a, [b)];".data.count '[' = "SELECT (a, [b)];".data.count ']') := by
  refine ⟨?_, ?_, by decide⟩
  · intro s
    rw [parentheses_match, ← pmGo_filter s []]
    rw [pmGo_iff_closesAll (s.filter isBracketB) []
      (fun x hx => (List.mem_filter.mp hx).2)]
    constructor
    · exact closesAll_nil_inv
    · exact ClosesAll.base _
  · intro parse
    have hne : trim "SELECT (a, [b)];".data ≠ [] := by decide
    have htr : trim "SELECT (a, [b)];".data = "SELECT (a, [b)];".data := by decide
    rw [validate_snd_eq hne, htr, validateErrors_bracketCex]
    simp

end TinySql
